import Mathlib

/-!
Verification of the Stream IR canonicalization patterns
(iree/compiler/Dialect/Stream/IR/StreamOpFolders.cpp) against their
natural-language specification.

The embedding is shallow: SSA values are identified by natural-number ids,
operations are records carrying exactly the operands/attributes the pattern
under study inspects, and each rewrite pattern becomes a pure function that
returns `none` for a match failure (no IR change) and `some r` for the
rewrite it performs.
-/

namespace Stream2Proof

/-- Resource lifetimes of the Stream resource type. -/
inductive Lifetime where
  | External
  | Staging
  | Transient
  | Constant
  | Unknown
  deriving DecidableEq, Repr

--=============================================================--
-- MaterializeCOW (StreamOpFolders.cpp lines 119-202)
--=============================================================--

/-- One use of a resource-typed op result, as inspected by the
`MaterializeCOW` pattern: the owning consumer op (by id), the operand slot,
whether the owner is a `stream.timepoint.await`, whether the owner ties that
operand (`TiedOpInterface::isOperandTied`), and the owner's affinity
attribute when it has one. -/
structure UseC where
  ownerId : Nat
  operandIndex : Nat
  ownerIsAwait : Bool
  ownerTied : Bool
  ownerAffinity : Option Nat
  deriving DecidableEq, Repr

/-- A copy-on-write clone rewrite produced by `MaterializeCOW`: a fresh
`stream.async.clone` of the original value is inserted immediately before
the consumer `ownerId` and the consumer's operand `operandIndex` is
redirected to the clone, with the given affinity attribute. -/
structure CloneRewrite where
  ownerId : Nat
  operandIndex : Nat
  affinity : Option Nat
  deriving DecidableEq, Repr

/-- The use-classification loop of `MaterializeCOW`: walks the uses of a
result in order, skipping uses owned by `timepoint.await` ops, collecting
tied uses in order and counting the untied ones. -/
def gatherCowUses : List UseC → List UseC × Nat
  | [] => ([], 0)
  | u :: rest =>
    if u.ownerIsAwait then gatherCowUses rest
    else if u.ownerTied then
      let (t, n) := gatherCowUses rest
      (u :: t, n)
    else
      let (t, n) := gatherCowUses rest
      (t, n + 1)

/-- The clone affinity selected by `MaterializeCOW` for a tied use:
the consumer's affinity when present, falling back to the producing op's
affinity (`targetAffinity ? targetAffinity : sourceAffinity`). -/
def cowCloneAffinity (srcAffinity : Option Nat) (u : UseC) : Option Nat :=
  match u.ownerAffinity with
  | some a => some a
  | none => srcAffinity

/-- The per-result body of the `MaterializeCOW` pattern. Given the producing
op's affinity, the result's lifetime and the result's use list, returns
`none` when the IR is left unchanged and otherwise the list of clone
rewrites, one per tied use, in use order. -/
def materializeCOWResult (srcAffinity : Option Nat) (lifetime : Lifetime)
    (uses : List UseC) : Option (List CloneRewrite) :=
  let forceClone : Bool := lifetime == Lifetime.Constant
  let tiedUses := (gatherCowUses uses).1
  let untiedUses := (gatherCowUses uses).2
  if tiedUses.isEmpty then none
  else if tiedUses.length == 1 && untiedUses == 0 && !forceClone then none
  else
    some (tiedUses.map fun u =>
      { ownerId := u.ownerId, operandIndex := u.operandIndex,
        affinity := cowCloneAffinity srcAffinity u })

/-- The tied uses seen by the COW pattern, declaratively: non-await uses
whose owner ties the operand. -/
def cowTiedUses (uses : List UseC) : List UseC :=
  uses.filter fun u => !u.ownerIsAwait && u.ownerTied

/-- The untied-use count seen by the COW pattern, declaratively: the number
of non-await uses whose owner does not tie the operand. -/
def cowUntiedCount (uses : List UseC) : Nat :=
  (uses.filter fun u => !u.ownerIsAwait && !u.ownerTied).length

theorem gatherCowUses_eq (uses : List UseC) :
    gatherCowUses uses = (cowTiedUses uses, cowUntiedCount uses) := by
  induction uses with
  | nil => rfl
  | cons u rest ih =>
    simp only [gatherCowUses, cowTiedUses, cowUntiedCount, List.filter_cons]
    cases ha : u.ownerIsAwait <;> cases ht : u.ownerTied <;>
      simp [ha, ht, ih, cowTiedUses, cowUntiedCount]

/-- Helper characterization of the COW pattern body: its match condition
and its output, stated over the declarative tied/untied classification. -/
theorem materializeCOWResult_characterization (srcAff : Option Nat)
    (lifetime : Lifetime) (uses : List UseC) :
    (materializeCOWResult srcAff lifetime uses = none ↔
      cowTiedUses uses = [] ∨
      ((cowTiedUses uses).length = 1 ∧ cowUntiedCount uses = 0 ∧
        lifetime ≠ Lifetime.Constant))
    ∧ (materializeCOWResult srcAff lifetime uses = none ∨
       materializeCOWResult srcAff lifetime uses =
         some ((cowTiedUses uses).map fun u =>
           { ownerId := u.ownerId, operandIndex := u.operandIndex,
             affinity := cowCloneAffinity srcAff u })) := by
  simp only [materializeCOWResult, gatherCowUses_eq]
  constructor
  · split_ifs with h1 h2
    · simp only [List.isEmpty_iff] at h1
      simp [h1]
    · simp only [Bool.and_eq_true, beq_iff_eq, Nat.beq_eq_true_eq,
        Bool.not_eq_true', beq_eq_false_iff_ne] at h2
      simp only [true_iff]
      right
      exact ⟨h2.1.1, h2.1.2, h2.2⟩
    · simp only [List.isEmpty_iff] at h1
      simp only [Bool.and_eq_true, beq_iff_eq, Nat.beq_eq_true_eq,
        Bool.not_eq_true', beq_eq_false_iff_ne, not_and] at h2
      constructor
      · intro h; exact absurd h (by simp)
      · rintro (h | ⟨hl, hu, hc⟩)
        · exact absurd h h1
        · exact absurd hc (by intro hc2; exact h2 ⟨hl, hu⟩ hc2 |>.elim)
  · split_ifs <;> simp

/-- C1: for every resource-typed result of an op, the COW materialization
pattern leaves the IR unchanged exactly when there are zero tied uses, or
exactly one tied use and zero untied uses while the lifetime is not
Constant; in every other case it clones once per tied use, inserting the
clone immediately before that consumer and giving it the consumer's
affinity when present and otherwise the producing op's affinity, and it
rewrites nothing else (untied uses keep the original value). -/
theorem cow_materialization_spec (srcAff : Option Nat) (lifetime : Lifetime)
    (uses : List UseC) :
    (materializeCOWResult srcAff lifetime uses = none ↔
      cowTiedUses uses = [] ∨
      ((cowTiedUses uses).length = 1 ∧ cowUntiedCount uses = 0 ∧
        lifetime ≠ Lifetime.Constant))
    ∧ (materializeCOWResult srcAff lifetime uses = none ∨
       materializeCOWResult srcAff lifetime uses =
         some ((cowTiedUses uses).map fun u =>
           { ownerId := u.ownerId, operandIndex := u.operandIndex,
             affinity := cowCloneAffinity srcAff u })) :=
  materializeCOWResult_characterization srcAff lifetime uses

/-- C10: the COW materialization pattern skips uses owned by
`timepoint.await` ops entirely: they are counted neither as tied nor as
untied uses (removing them from the use list changes nothing), and every
clone rewrite it emits targets a non-await tied use. -/
theorem cow_skips_timepoint_await_uses (srcAff : Option Nat)
    (lifetime : Lifetime) (uses : List UseC) :
    gatherCowUses uses = gatherCowUses (uses.filter fun u => !u.ownerIsAwait)
    ∧ materializeCOWResult srcAff lifetime uses =
        materializeCOWResult srcAff lifetime
          (uses.filter fun u => !u.ownerIsAwait)
    ∧ ((materializeCOWResult srcAff lifetime uses).getD []).all
        (fun r => uses.any fun u =>
          !u.ownerIsAwait && u.ownerTied && (u.ownerId == r.ownerId) &&
            (u.operandIndex == r.operandIndex)) = true := by
  have hfilt : gatherCowUses uses =
      gatherCowUses (uses.filter fun u => !u.ownerIsAwait) := by
    simp only [gatherCowUses_eq, cowTiedUses, cowUntiedCount,
      List.filter_filter, Prod.mk.injEq]
    constructor
    · apply List.filter_congr
      intro u _
      cases u.ownerIsAwait <;> cases u.ownerTied <;> simp
    · congr 1
      apply List.filter_congr
      intro u _
      cases u.ownerIsAwait <;> cases u.ownerTied <;> simp
  refine ⟨hfilt, by simp only [materializeCOWResult, hfilt], ?_⟩
  cases hm : materializeCOWResult srcAff lifetime uses with
  | none => rfl
  | some rs =>
    simp only [Option.getD_some, List.all_eq_true]
    intro r hr
    have hch : materializeCOWResult srcAff lifetime uses = none ∨
        materializeCOWResult srcAff lifetime uses =
          some ((cowTiedUses uses).map fun u =>
            { ownerId := u.ownerId, operandIndex := u.operandIndex,
              affinity := cowCloneAffinity srcAff u }) :=
      (materializeCOWResult_characterization srcAff lifetime uses).2
    rcases hch with h | h
    · rw [hm] at h; exact absurd h (by simp)
    · rw [hm] at h
      injection h with h
      subst h
      rcases List.mem_map.mp hr with ⟨u, hu, rfl⟩
      rcases List.mem_filter.mp hu with ⟨humem, hpred⟩
      simp only [List.any_eq_true]
      refine ⟨u, humem, ?_⟩
      simp only [Bool.and_eq_true, beq_iff_eq] at hpred
      simp [hpred.1, hpred.2]

--=============================================================--
-- ChainAsyncExecuteWaits / ChainCmdExecuteWaits
-- (StreamOpFolders.cpp lines 1232-1254 and 1625-1647)
--=============================================================--

/-- An execution-region op (`stream.async.execute` or `stream.cmd.execute`)
as seen by the chain-awaits pattern: its resource operands and its
`await_timepoints` list, all as SSA value ids. -/
structure ExecuteOpM where
  operands : List Nat
  awaitTimepoints : List Nat
  deriving DecidableEq, Repr

/-- The operand-scanning loop of `ChainAsyncExecuteWaits`: enumerates the
operands and, for each operand defined by a `stream.timepoint.await`
(described by `defAwait`, which maps a value id to the pair of the await's
timepoint and the tied source operand `getTiedResultOperand`), records the
replacement (operand index, source value). -/
def collectAwaitReplacements (defAwait : Nat → Option (Nat × Nat)) :
    List Nat → Nat → List (Nat × Nat)
  | [], _ => []
  | v :: rest, i =>
    match defAwait v with
    | some ta => (i, ta.2) :: collectAwaitReplacements defAwait rest (i + 1)
    | none => collectAwaitReplacements defAwait rest (i + 1)

/-- The `ChainAsyncExecuteWaits` pattern: rewrites every region operand
that is produced by a `timepoint.await` to the await's tied source operand.
The `await_timepoints` list is not touched by the pattern. -/
def chainAsyncExecuteWaits (defAwait : Nat → Option (Nat × Nat))
    (op : ExecuteOpM) : Option ExecuteOpM :=
  let replacements := collectAwaitReplacements defAwait op.operands 0
  if replacements.isEmpty then none
  else
    some { op with
      operands := replacements.foldl (fun ops r => ops.set r.1 r.2) op.operands }

/-- The `ChainCmdExecuteWaits` pattern, textually identical to
`ChainAsyncExecuteWaits` but matching `stream.cmd.execute`. -/
def chainCmdExecuteWaits (defAwait : Nat → Option (Nat × Nat))
    (op : ExecuteOpM) : Option ExecuteOpM :=
  chainAsyncExecuteWaits defAwait op

/-- C2 (code bug): the chain-awaits patterns rewrite a region operand
produced by `timepoint.await tp x` to `x`, but never add `tp` to the
region's `await_timepoints` list: the await list is left unchanged by every
application, and on the concrete input (operand %5 = await(%9, %7), empty
await list) the operand becomes %7 while the timepoint %9 is dropped. -/
theorem chainAsyncExecuteWaits_drops_timepoint :
    (∀ (f : Nat → Option (Nat × Nat)) (op : ExecuteOpM),
      ((chainAsyncExecuteWaits f op).getD op).awaitTimepoints =
        op.awaitTimepoints)
    ∧ (∀ (f : Nat → Option (Nat × Nat)) (op : ExecuteOpM),
      chainCmdExecuteWaits f op = chainAsyncExecuteWaits f op)
    ∧ chainAsyncExecuteWaits (fun v => if v = 5 then some (9, 7) else none)
        { operands := [5], awaitTimepoints := [] } =
      some { operands := [7], awaitTimepoints := [] } := by
  refine ⟨?_, fun f op => rfl, rfl⟩
  intro f op
  simp only [chainAsyncExecuteWaits]
  split <;> simp

--=============================================================--
-- ElideUnneededTensorClones (StreamOpFolders.cpp lines 638-648)
--=============================================================--

/-- One use of an SSA value: whether the consumer op ties that operand
slot to one of its results. -/
structure UseT where
  tiesOperand : Bool
  deriving DecidableEq, Repr

/-- Modelled from the spec: `IREE::Util::TiedOpInterface::hasAnyTiedUses`
lives in the Util dialect outside the given sources; per the spec a tie is
a declared in-place relation between a consumer's result and its operand,
so a value has a tied use when some use of it is tied by its consumer. -/
def hasAnyTiedUses (uses : List UseT) : Bool :=
  uses.any (·.tiesOperand)

/-- A `stream.tensor.clone` op as inspected by `ElideUnneededTensorClones`:
its source value and the use lists of its result and of its source. -/
structure TensorCloneOpM where
  source : Nat
  resultUses : List UseT
  sourceUses : List UseT
  deriving DecidableEq, Repr

/-- The `ElideUnneededTensorClones` pattern: replaces the clone with its
source (`some source`) when the clone's result has no tied uses, and
fails (`none`) otherwise. The source's own uses are not inspected. -/
def elideUnneededTensorClones (op : TensorCloneOpM) : Option Nat :=
  if !hasAnyTiedUses op.resultUses then some op.source else none

/-- C3 counterexample: a `tensor.clone` whose source has a tied use but
whose result has none is still replaced with its source, contradicting the
claim that the clone is left in place when either side has a tied use. -/
theorem tensorCloneElision_fires_despite_tied_source :
    elideUnneededTensorClones
        { source := 1, resultUses := [],
          sourceUses := [{ tiesOperand := true }] } = some 1
    ∧ hasAnyTiedUses [({ tiesOperand := true } : UseT)] = true :=
  ⟨rfl, rfl⟩

/-- C3 amended: `ElideUnneededTensorClones` replaces the clone with its
source exactly when the clone's result has no tied uses; the clone's
source uses are never examined (the pattern's outcome is invariant under
changing them). -/
theorem tensorCloneElision_checks_result_only (op : TensorCloneOpM)
    (su : List UseT) :
    (elideUnneededTensorClones op = some op.source ↔
      hasAnyTiedUses op.resultUses = false)
    ∧ (elideUnneededTensorClones op = none ↔
      hasAnyTiedUses op.resultUses = true)
    ∧ (hasAnyTiedUses op.resultUses = false ↔
      op.resultUses.all (fun u => !u.tiesOperand) = true)
    ∧ elideUnneededTensorClones { op with sourceUses := su } =
        elideUnneededTensorClones op := by
  refine ⟨?_, ?_, ?_, ?_⟩
  · simp only [elideUnneededTensorClones]
    cases h : hasAnyTiedUses op.resultUses <;> simp
  · simp only [elideUnneededTensorClones]
    cases h : hasAnyTiedUses op.resultUses <;> simp
  · simp only [hasAnyTiedUses, List.all_eq_true, Bool.not_eq_true',
      ← Bool.not_eq_true, List.any_eq_true, not_exists, not_and]
  · simp only [elideUnneededTensorClones]

--=============================================================--
-- ResourceSubviewOp::fold (lines 499-505) and
-- AsyncSliceOp::fold (lines 915-923)
--=============================================================--

/-- A `stream.resource.subview` op: all operands are SSA value ids. -/
structure ResourceSubviewOpM where
  source : Nat
  sourceSize : Nat
  sourceOffset : Nat
  resultSize : Nat
  deriving DecidableEq, Repr

/-- The fold of `stream.resource.subview`: replaces the op with its source
when the source-size operand and the result-size operand are the same SSA
value. -/
def resourceSubviewFold (op : ResourceSubviewOpM) : Option Nat :=
  if op.sourceSize == op.resultSize then some op.source else none

/-- A `stream.async.slice` op: all operands are SSA value ids. -/
structure AsyncSliceOpM where
  source : Nat
  sourceSize : Nat
  sourceOffset : Nat
  sourceEnd : Nat
  resultSize : Nat
  deriving DecidableEq, Repr

/-- The fold of `stream.async.slice`: replaces the op with its source when
the source-size operand and the result-size operand are the same SSA
value. -/
def asyncSliceFold (op : AsyncSliceOpM) : Option Nat :=
  if op.sourceSize == op.resultSize then some op.source else none

/-- C9: both folds fire exactly when the source-size operand and the
result-size operand are the same SSA value, yield the whole source, and
never examine the offset operands: their outcome is invariant under any
change of offset, so a subview or slice at a nonzero offset whose two size
operands coincide is still folded to the source (concrete instances
included). -/
theorem subview_slice_fold_ignores_offset :
    (∀ op : ResourceSubviewOpM,
      ((resourceSubviewFold op).isSome = (op.sourceSize == op.resultSize))
      ∧ (resourceSubviewFold op = none ∨
         resourceSubviewFold op = some op.source)
      ∧ ∀ x, resourceSubviewFold { op with sourceOffset := x } =
          resourceSubviewFold op)
    ∧ (∀ op : AsyncSliceOpM,
      ((asyncSliceFold op).isSome = (op.sourceSize == op.resultSize))
      ∧ (asyncSliceFold op = none ∨ asyncSliceFold op = some op.source)
      ∧ ∀ x y, asyncSliceFold
          { op with sourceOffset := x, sourceEnd := y } = asyncSliceFold op)
    ∧ resourceSubviewFold
        { source := 3, sourceSize := 11, sourceOffset := 4,
          resultSize := 11 } = some 3
    ∧ asyncSliceFold
        { source := 3, sourceSize := 11, sourceOffset := 4, sourceEnd := 6,
          resultSize := 11 } = some 3 := by
  refine ⟨?_, ?_, rfl, rfl⟩
  · intro op
    refine ⟨?_, ?_, fun x => rfl⟩
    · simp only [resourceSubviewFold]
      cases h : (op.sourceSize == op.resultSize) <;> simp
    · simp only [resourceSubviewFold]
      cases h : (op.sourceSize == op.resultSize) <;> simp
  · intro op
    refine ⟨?_, ?_, fun x y => rfl⟩
    · simp only [asyncSliceFold]
      cases h : (op.sourceSize == op.resultSize) <;> simp
    · simp only [asyncSliceFold]
      cases h : (op.sourceSize == op.resultSize) <;> simp

--=============================================================--
-- AsyncCopyFullSourceToUpdate (StreamOpFolders.cpp lines 1107-1121)
--=============================================================--

/-- A `stream.async.copy` op: all operands are SSA value ids. -/
structure AsyncCopyOpM where
  target : Nat
  targetSize : Nat
  targetOffset : Nat
  targetEnd : Nat
  source : Nat
  sourceSize : Nat
  sourceOffset : Nat
  sourceEnd : Nat
  copyLength : Nat
  deriving DecidableEq, Repr

/-- The `stream.async.update` op created by `AsyncCopyFullSourceToUpdate`:
same target and target range as the copy, with the copy's source as the
update value and the copy's source size as the update size. -/
structure AsyncUpdateRewriteM where
  target : Nat
  targetSize : Nat
  targetOffset : Nat
  targetEnd : Nat
  update : Nat
  updateSize : Nat
  deriving DecidableEq, Repr

/-- The `AsyncCopyFullSourceToUpdate` pattern: rewrites the copy to an
update when the copy's source-end operand is the same SSA value as its
source-size operand; the source offset is not examined. -/
def asyncCopyFullSourceToUpdate (op : AsyncCopyOpM) :
    Option AsyncUpdateRewriteM :=
  if op.sourceEnd == op.sourceSize then
    some { target := op.target, targetSize := op.targetSize,
           targetOffset := op.targetOffset, targetEnd := op.targetEnd,
           update := op.source, updateSize := op.sourceSize }
  else none

/-- A sample value assignment for the C5 counterexample: the offset operand
%10 holds 4 and the size/end operand %11 holds 16, so the copied source
range is bytes 4 to 16 of a 16-byte resource, not the entire resource. -/
def copyCexEnv : Nat → Nat :=
  fun v => if v = 10 then 4 else if v = 11 then 16 else 0

/-- C5 counterexample: a copy whose source offset is nonzero (so its source
range is not the entire source resource) but whose source-end operand is
the same value as its source-size operand is still rewritten to an update,
contradicting the claim that the pattern makes no change in that case. -/
theorem asyncCopy_rewrite_fires_at_nonzero_offset :
    asyncCopyFullSourceToUpdate
        { target := 0, targetSize := 1, targetOffset := 2, targetEnd := 3,
          source := 4, sourceSize := 11, sourceOffset := 10, sourceEnd := 11,
          copyLength := 6 } =
      some { target := 0, targetSize := 1, targetOffset := 2, targetEnd := 3,
             update := 4, updateSize := 11 }
    ∧ copyCexEnv 10 = 4 ∧ copyCexEnv 11 = 16 ∧ copyCexEnv 10 ≠ 0 :=
  ⟨rfl, rfl, rfl, by decide⟩

/-- C5 amended: the pattern rewrites the copy to an `async.update` with the
same target and target range and the copy's source as the update value
exactly when the copy's source-end operand is the same SSA value as its
source-size operand; the source offset operand is never examined. -/
theorem asyncCopyFullSourceToUpdate_spec (op : AsyncCopyOpM) (x : Nat) :
    ((asyncCopyFullSourceToUpdate op).isSome = (op.sourceEnd == op.sourceSize))
    ∧ (asyncCopyFullSourceToUpdate op = none ∨
       asyncCopyFullSourceToUpdate op =
         some { target := op.target, targetSize := op.targetSize,
                targetOffset := op.targetOffset, targetEnd := op.targetEnd,
                update := op.source, updateSize := op.sourceSize })
    ∧ asyncCopyFullSourceToUpdate { op with sourceOffset := x } =
        asyncCopyFullSourceToUpdate op := by
  refine ⟨?_, ?_, rfl⟩
  · simp only [asyncCopyFullSourceToUpdate]
    cases h : (op.sourceEnd == op.sourceSize) <;> simp
  · simp only [asyncCopyFullSourceToUpdate]
    cases h : (op.sourceEnd == op.sourceSize) <;> simp

--=============================================================--
-- CombineSliceUpdateFromToCopy (StreamOpFolders.cpp lines 1054-1082)
--=============================================================--

/-- Identity of an operation inside the IR: its block and its position in
that block (`isBeforeInBlock` compares positions within one block). -/
structure OpPos where
  block : Nat
  pos : Nat
  deriving DecidableEq, Repr

/-- The `stream.async.slice` op defining the update operand: its placement
and its operands (SSA value ids). -/
structure SliceDefM where
  ref : OpPos
  source : Nat
  sourceSize : Nat
  sourceOffset : Nat
  sourceEnd : Nat
  resultSize : Nat
  deriving DecidableEq, Repr

/-- A `stream.async.update` op as inspected by the pattern: its placement,
target operand with the placement of the target's defining op (if any),
target range operands, the defining `async.slice` of the update operand
(if the update operand is slice-defined), and its tied/affinity attrs. -/
structure AsyncUpdateOpM where
  ref : OpPos
  target : Nat
  targetDef : Option OpPos
  targetSize : Nat
  targetOffset : Nat
  targetEnd : Nat
  updateDef : Option SliceDefM
  tiedOperands : Option Nat
  affinity : Option Nat
  deriving DecidableEq, Repr

/-- The `stream.async.copy` created by `CombineSliceUpdateFromToCopy`. -/
structure AsyncCopyRewriteM where
  target : Nat
  targetSize : Nat
  targetOffset : Nat
  targetEnd : Nat
  source : Nat
  sourceSize : Nat
  sourceOffset : Nat
  sourceEnd : Nat
  copyLength : Nat
  tiedOperands : Option Nat
  affinity : Option Nat
  deriving DecidableEq, Repr

/-- The `CombineSliceUpdateFromToCopy` pattern: requires the update operand
to be defined by an `async.slice` in the update's block, the target to have
a defining op in the slice's block, and the slice not to be before the
target's defining op; then rewrites to a copy from the slice's source over
the slice's range. -/
def combineSliceUpdateFromToCopy (op : AsyncUpdateOpM) :
    Option AsyncCopyRewriteM :=
  match op.updateDef with
  | none => none
  | some sliceOp =>
    if sliceOp.ref.block != op.ref.block then none
    else
      match op.targetDef with
      | none => none
      | some targetDefOp =>
        if targetDefOp.block != sliceOp.ref.block ||
            decide (sliceOp.ref.pos < targetDefOp.pos) then none
        else
          some { target := op.target, targetSize := op.targetSize,
                 targetOffset := op.targetOffset, targetEnd := op.targetEnd,
                 source := sliceOp.source, sourceSize := sliceOp.sourceSize,
                 sourceOffset := sliceOp.sourceOffset,
                 sourceEnd := sliceOp.sourceEnd,
                 copyLength := sliceOp.resultSize,
                 tiedOperands := op.tiedOperands, affinity := op.affinity }

/-- C4 counterexample: when the update's target is itself the slice's
result, the target's defining op is the slice, so the slice is not produced
after it (their positions coincide); the claim then requires no change,
but `isBeforeInBlock` is a strict order and the pattern still fires. -/
theorem sliceUpdate_fires_when_slice_defines_target :
    combineSliceUpdateFromToCopy
        { ref := { block := 0, pos := 1 }, target := 7,
          targetDef := some { block := 0, pos := 0 },
          targetSize := 1, targetOffset := 2, targetEnd := 3,
          updateDef := some
            { ref := { block := 0, pos := 0 }, source := 4, sourceSize := 5,
              sourceOffset := 6, sourceEnd := 8, resultSize := 9 },
          tiedOperands := none, affinity := none } =
      some { target := 7, targetSize := 1, targetOffset := 2, targetEnd := 3,
             source := 4, sourceSize := 5, sourceOffset := 6, sourceEnd := 8,
             copyLength := 9, tiedOperands := none, affinity := none }
    ∧ ¬ (0 : Nat) < 0 :=
  ⟨rfl, by decide⟩

/-- C4 amended: the pattern rewrites to a copy from the slice's source over
the slice's range exactly when the slice is in the update's block, the
target has a defining op in that block, and the slice is not produced
before the target's defining op (strictly after it, or the same op when
the target is the slice itself); in every other case it makes no change. -/
theorem sliceUpdate_combine_spec (op : AsyncUpdateOpM) :
    (op.updateDef = none → combineSliceUpdateFromToCopy op = none)
    ∧ (∀ s, op.updateDef = some s → s.ref.block ≠ op.ref.block →
        combineSliceUpdateFromToCopy op = none)
    ∧ (∀ s, op.updateDef = some s → op.targetDef = none →
        combineSliceUpdateFromToCopy op = none)
    ∧ (∀ s t, op.updateDef = some s → op.targetDef = some t →
        (t.block ≠ s.ref.block ∨ s.ref.pos < t.pos) →
        combineSliceUpdateFromToCopy op = none)
    ∧ (∀ s t, op.updateDef = some s → op.targetDef = some t →
        s.ref.block = op.ref.block → t.block = s.ref.block →
        ¬ s.ref.pos < t.pos →
        combineSliceUpdateFromToCopy op =
          some { target := op.target, targetSize := op.targetSize,
                 targetOffset := op.targetOffset, targetEnd := op.targetEnd,
                 source := s.source, sourceSize := s.sourceSize,
                 sourceOffset := s.sourceOffset, sourceEnd := s.sourceEnd,
                 copyLength := s.resultSize,
                 tiedOperands := op.tiedOperands,
                 affinity := op.affinity }) := by
  refine ⟨?_, ?_, ?_, ?_, ?_⟩
  · intro h
    simp [combineSliceUpdateFromToCopy, h]
  · intro s hs hb
    simp [combineSliceUpdateFromToCopy, hs, bne_iff_ne, hb]
  · intro s hs ht
    simp only [combineSliceUpdateFromToCopy, hs, ht]
    split <;> rfl
  · intro s t hs ht hcond
    simp only [combineSliceUpdateFromToCopy, hs, ht]
    rcases hcond with hb | hp
    · split
      · rfl
      · simp [bne_iff_ne, hb]
    · split
      · rfl
      · simp [hp]
  · intro s t hs ht hsb htb hp
    simp [combineSliceUpdateFromToCopy, hs, ht, hsb, htb, hp, bne_iff_ne]

/-- C4 witness: the positive branch of the amended statement applied to a
concrete update fed by a slice produced after the target's defining op. -/
theorem sliceUpdate_combine_spec_witness :
    combineSliceUpdateFromToCopy
        { ref := { block := 2, pos := 5 }, target := 20,
          targetDef := some { block := 2, pos := 1 },
          targetSize := 21, targetOffset := 22, targetEnd := 23,
          updateDef := some
            { ref := { block := 2, pos := 4 }, source := 30, sourceSize := 31,
              sourceOffset := 32, sourceEnd := 33, resultSize := 34 },
          tiedOperands := some 40, affinity := some 41 } =
      some { target := 20, targetSize := 21, targetOffset := 22,
             targetEnd := 23, source := 30, sourceSize := 31,
             sourceOffset := 32, sourceEnd := 33, copyLength := 34,
             tiedOperands := some 40, affinity := some 41 } :=
  (sliceUpdate_combine_spec _).2.2.2.2
    { ref := { block := 2, pos := 4 }, source := 30, sourceSize := 31,
      sourceOffset := 32, sourceEnd := 33, resultSize := 34 }
    { block := 2, pos := 1 } rfl rfl rfl rfl (by decide)

--=============================================================--
-- findInsertionPointBefore / sinkOp (StreamOpFolders.cpp lines 45-79)
--=============================================================--

/-- An operation in a block, for the sinking helper: its identity and the
ids of the defining ops of its operands (operands without a defining op
contribute nothing). -/
structure BOpM where
  id : Nat
  operandDefs : List Nat
  deriving DecidableEq, Repr

/-- The producer set collected by `findInsertionPointBefore` for the target
op at index `j` of the block: the defining ops of the target's operands. -/
def producersOf (blk : List BOpM) (j : Nat) : List Nat :=
  match blk.get? j with
  | some t => t.operandDefs
  | none => []

/-- The scan loop of `findInsertionPointBefore`: checks that every op at
index `lo`, `lo+1`, ..., `lo+len-1` of the block is in the producer set. -/
def opsRangeAllProducers (blk : List BOpM) (lo len : Nat)
    (producers : List Nat) : Bool :=
  (List.range' lo len).all fun k =>
    match blk.get? k with
    | some o => producers.contains o.id
    | none => false

/-- `findInsertionPointBefore` for an op at index `i` and a target at index
`j` of the same block: returns `i` (do not move) when every op from `i`
inclusive up to `j` exclusive is a producer of some operand of the target,
and `j` (insert before the target) otherwise. -/
def findInsertionPointBefore (blk : List BOpM) (i j : Nat) : Nat :=
  if opsRangeAllProducers blk i (j - i) (producersOf blk j) then i else j

/-- `sinkOp` for an op at index `i` and a target at index `j > i` of the
same block: fails (no change) when the insertion point is the op itself,
and otherwise moves the op to immediately before the target. -/
def sinkOp (blk : List BOpM) (i j : Nat) : Option (List BOpM) :=
  if findInsertionPointBefore blk i j = i then none
  else
    match blk.get? i with
    | some opv => some ((blk.eraseIdx i).insertIdx (j - 1) opv)
    | none => none

/-- C8 counterexample: the block holds `op` (id 0), then a producer (id 1)
of the target's operand, then the target (id 2). Every op strictly between
`op` and the target is a producer of a target operand, so the claim demands
no change, but the scan starts at `op` itself, which is not a producer, so
the op is moved (and the sink reports success). -/
theorem sinkOp_moves_despite_producers_between :
    sinkOp [{ id := 0, operandDefs := [] }, { id := 1, operandDefs := [] },
            { id := 2, operandDefs := [1] }] 0 2 =
      some [{ id := 1, operandDefs := [] }, { id := 0, operandDefs := [] },
            { id := 2, operandDefs := [1] }]
    ∧ opsRangeAllProducers
        [{ id := 0, operandDefs := [] }, { id := 1, operandDefs := [] },
         { id := 2, operandDefs := [1] }] 1 1
        (producersOf
          [{ id := 0, operandDefs := [] }, { id := 1, operandDefs := [] },
           { id := 2, operandDefs := [1] }] 2) = true :=
  ⟨rfl, rfl⟩

/-- C8 amended: the sink helper leaves the op in place and reports failure
exactly when every op from the op itself (inclusive) up to the target
(exclusive) is the defining op of some operand of the target - that is,
the claim's strictly-between condition plus the op itself being a producer;
otherwise the op is moved to immediately before the target. -/
theorem sinkOp_spec (blk : List BOpM) (i j : Nat) (hij : i < j)
    (hj : j < blk.length) :
    (sinkOp blk i j = none ↔
      opsRangeAllProducers blk i (j - i) (producersOf blk j) = true)
    ∧ opsRangeAllProducers blk i (j - i) (producersOf blk j) =
        ((match blk.get? i with
          | some o => (producersOf blk j).contains o.id
          | none => false) &&
         opsRangeAllProducers blk (i + 1) (j - i - 1) (producersOf blk j))
    ∧ (sinkOp blk i j = none ∨
       ∃ opv, blk.get? i = some opv ∧
         sinkOp blk i j = some ((blk.eraseIdx i).insertIdx (j - 1) opv)) := by
  have hne : j ≠ i := Nat.ne_of_gt hij
  have hilt : i < blk.length := Nat.lt_trans hij hj
  have hi : blk.get? i = some (blk.get ⟨i, hilt⟩) := List.get?_eq_get hilt
  have hie : blk[i]? = some blk[i] := List.getElem?_eq_getElem hilt
  refine ⟨?_, ?_, ?_⟩
  · cases hA : opsRangeAllProducers blk i (j - i) (producersOf blk j) with
    | false =>
      have hfi : findInsertionPointBefore blk i j = j := by
        simp [findInsertionPointBefore, hA]
      simp [sinkOp, hfi, hne, hi, hie]
    | true =>
      have hfi : findInsertionPointBefore blk i j = i := by
        simp [findInsertionPointBefore, hA]
      simp [sinkOp, hfi]
  · obtain ⟨m, hm⟩ : ∃ m, j - i = m + 1 := ⟨j - i - 1, by omega⟩
    rw [hm]
    simp only [Nat.add_sub_cancel]
    have hr : List.range' i (m + 1) = i :: List.range' (i + 1) m := rfl
    simp only [opsRangeAllProducers, hr, List.all_cons]
  · simp only [sinkOp]
    split
    · exact Or.inl rfl
    · right
      rw [hi]
      exact ⟨_, rfl, rfl⟩

/-- C8 witness: applying the amended statement to a concrete block where
the op itself produces the target's only operand and is adjacent to it,
so the sink reports failure and the op stays in place. -/
theorem sinkOp_spec_witness :
    (0 : Nat) < 1 ∧ (1 : Nat) < 2 ∧
    sinkOp [{ id := 5, operandDefs := [] }, { id := 6, operandDefs := [5] }]
      0 1 = none :=
  ⟨by decide, by decide,
    (sinkOp_spec
      [{ id := 5, operandDefs := [] }, { id := 6, operandDefs := [5] }]
      0 1 (by decide) (by decide)).1.mpr (by decide)⟩

--=============================================================--
-- ElideImmediateAsyncExecuteWaits (lines 1190-1211) and
-- ElideDuplicateAsyncExecuteWaits (lines 1214-1230)
--=============================================================--

/-- The index-collection loop of `ElideImmediateAsyncExecuteWaits`:
enumerates the await list from counter `i` and records the indices of the
entries whose defining op is a `timepoint.immediate` (described by the
predicate `imm` on value ids). -/
def elidedIdxs (imm : Nat → Bool) : List Nat → Nat → List Nat
  | [], _ => []
  | v :: rest, i =>
    if imm v then i :: elidedIdxs imm rest (i + 1)
    else elidedIdxs imm rest (i + 1)

/-- The `ElideImmediateAsyncExecuteWaits` pattern: fails when no entry of
the `await_timepoints` list is immediate-defined, and otherwise erases the
recorded indices from the list in reverse order. -/
def elideImmediateAsyncExecuteWaits (imm : Nat → Bool) (l : List Nat) :
    Option (List Nat) :=
  let elided := elidedIdxs imm l 0
  if elided.isEmpty then none
  else some (elided.reverse.foldl (fun acc i => acc.eraseIdx i) l)

/-- One `SetVector::insert`: appends the value unless already present. -/
def setVectorInsert (acc : List Nat) (v : Nat) : List Nat :=
  if v ∈ acc then acc else acc ++ [v]

/-- The `SetVector` built by `ElideDuplicateAsyncExecuteWaits` from the
await list: the list of unique entries in insertion (first-occurrence)
order. -/
def uniqueTimepoints (l : List Nat) : List Nat :=
  l.foldl setVectorInsert []

/-- The `ElideDuplicateAsyncExecuteWaits` pattern: fails when the unique
entries are as many as the list's entries, and otherwise replaces the
await list with the deduplicated one. -/
def elideDuplicateAsyncExecuteWaits (l : List Nat) : Option (List Nat) :=
  let u := uniqueTimepoints l
  if u.length == l.length then none else some u

/-- Applying the two await-list canonicalizations in sequence, each leaving
the list unchanged on match failure (as the pattern driver does). -/
def cleanAwaits (imm : Nat → Bool) (l : List Nat) : List Nat :=
  let l1 := (elideImmediateAsyncExecuteWaits imm l).getD l
  (elideDuplicateAsyncExecuteWaits l1).getD l1

/-- First-occurrence deduplication, stated as the specification reads:
keep each entry at its first occurrence and drop the later duplicates. -/
def firstOcc : List Nat → List Nat
  | [] => []
  | a :: t => a :: firstOcc (t.filter (fun b => b != a))
termination_by l => l.length
decreasing_by
  simp only [List.length_cons]
  exact Nat.lt_succ_of_le (List.length_filter_le _ t)

theorem elidedIdxs_shift (imm : Nat → Bool) (l : List Nat) (i : Nat) :
    elidedIdxs imm l (i + 1) = (elidedIdxs imm l i).map (· + 1) := by
  induction l generalizing i with
  | nil => rfl
  | cons v t ih =>
    simp only [elidedIdxs]
    cases imm v <;> simp [ih]

theorem foldl_eraseIdx_map_succ (idxs : List Nat) (a : Nat) (t : List Nat) :
    (idxs.map (· + 1)).foldl (fun acc i => acc.eraseIdx i) (a :: t) =
      a :: idxs.foldl (fun acc i => acc.eraseIdx i) t := by
  induction idxs generalizing t with
  | nil => rfl
  | cons i rest ih =>
    simp only [List.map_cons, List.foldl_cons, List.eraseIdx_cons_succ]
    exact ih (t.eraseIdx i)


theorem erase_elided_eq_filter (imm : Nat → Bool) (l : List Nat) :
    (elidedIdxs imm l 0).reverse.foldl (fun acc i => acc.eraseIdx i) l =
      l.filter (fun v => !imm v) := by
  induction l with
  | nil => rfl
  | cons v t ih =>
    have hs : elidedIdxs imm t 1 =
        (elidedIdxs imm t 0).map (fun x => x + 1) := by
      have := elidedIdxs_shift imm t 0
      simpa using this
    have hrm : ((elidedIdxs imm t 0).map (fun x => x + 1)).reverse =
        (elidedIdxs imm t 0).reverse.map (fun x => x + 1) :=
      (List.map_reverse _ _).symm
    cases h : imm v with
    | true =>
      have he : elidedIdxs imm (v :: t) 0 = 0 :: elidedIdxs imm t 1 := by
        rw [elidedIdxs, if_pos h]
      rw [he, hs, List.reverse_cons, hrm, List.foldl_append,
        foldl_eraseIdx_map_succ, ih]
      simp [List.filter_cons, h]
    | false =>
      have he : elidedIdxs imm (v :: t) 0 = elidedIdxs imm t 1 := by
        rw [elidedIdxs, if_neg]
        simp [h]
      rw [he, hs, hrm, foldl_eraseIdx_map_succ, ih]
      simp [List.filter_cons, h]

theorem elidedIdxs_eq_nil_iff (imm : Nat → Bool) (l : List Nat) (i : Nat) :
    elidedIdxs imm l i = [] ↔ l.all (fun v => !imm v) = true := by
  induction l generalizing i with
  | nil => simp [elidedIdxs]
  | cons v t ih =>
    simp only [elidedIdxs, List.all_cons, Bool.and_eq_true]
    cases h : imm v <;> simp [ih]

theorem elideImmediate_getD (imm : Nat → Bool) (l : List Nat) :
    (elideImmediateAsyncExecuteWaits imm l).getD l =
      l.filter (fun v => !imm v) := by
  simp only [elideImmediateAsyncExecuteWaits]
  split
  · next h =>
    simp only [List.isEmpty_iff] at h
    rw [elidedIdxs_eq_nil_iff] at h
    simp only [Option.getD_none]
    symm
    apply List.filter_eq_self.mpr
    intro a ha
    exact (List.all_eq_true.mp h) a ha
  · simp only [Option.getD_some]
    exact erase_elided_eq_filter imm l

theorem uniqueTimepoints_go (l : List Nat) : ∀ acc : List Nat,
    l.foldl setVectorInsert acc =
      acc ++ firstOcc (l.filter (fun v => decide (v ∉ acc))) := by
  induction l with
  | nil =>
    intro acc
    simp [firstOcc]
  | cons a t ih =>
    intro acc
    rw [List.foldl_cons]
    by_cases h : a ∈ acc
    · simp only [setVectorInsert, if_pos h]
      rw [ih acc]
      congr 2
      rw [List.filter_cons]
      simp [h]
    · simp only [setVectorInsert, if_neg h]
      rw [ih (acc ++ [a])]
      have hfe : t.filter (fun v => decide (v ∉ acc ++ [a])) =
          (t.filter (fun v => decide (v ∉ acc))).filter
            (fun b => b != a) := by
        rw [List.filter_filter]
        apply List.filter_congr
        intro b _
        by_cases hba : b = a
        · subst hba
          simp [List.mem_append]
        · by_cases hb : b ∈ acc
          · simp [List.mem_append, hb, hba]
          · simp [List.mem_append, hb, hba]
      have hfc : (a :: t).filter (fun v => decide (v ∉ acc)) =
          a :: t.filter (fun v => decide (v ∉ acc)) := by
        rw [List.filter_cons]
        simp [h]
      have hcons : firstOcc (a :: t.filter (fun v => decide (v ∉ acc))) =
          a :: firstOcc ((t.filter (fun v => decide (v ∉ acc))).filter
            (fun b => b != a)) := by
        rw [firstOcc]
      rw [hfe, hfc, hcons, List.append_assoc]
      rfl

theorem uniqueTimepoints_eq_firstOcc (l : List Nat) :
    uniqueTimepoints l = firstOcc l := by
  have hgo := uniqueTimepoints_go l []
  have hft : l.filter (fun v => decide (v ∉ ([] : List Nat))) = l := by
    apply List.filter_eq_self.mpr
    intro a ha
    simp
  simpa [uniqueTimepoints, hft] using hgo

theorem firstOcc_sublist : ∀ (l : List Nat), (firstOcc l).Sublist l := by
  have key : ∀ (n : Nat) (l : List Nat), l.length ≤ n →
      (firstOcc l).Sublist l := by
    intro n
    induction n with
    | zero =>
      intro l hl
      rw [Nat.le_zero, List.length_eq_zero] at hl
      subst hl
      simp [firstOcc]
    | succ n ih =>
      intro l hl
      cases l with
      | nil => simp [firstOcc]
      | cons a t =>
        rw [firstOcc]
        apply List.cons_sublist_cons.mpr
        have hlen : (t.filter (fun b => b != a)).length ≤ n := by
          have h1 := List.length_filter_le (fun b => b != a) t
          have h2 : t.length ≤ n := Nat.le_of_succ_le_succ hl
          omega
        exact List.Sublist.trans (ih _ hlen) (List.filter_sublist t)
  exact fun l => key l.length l (Nat.le_refl _)

theorem mem_firstOcc (v : Nat) : ∀ (l : List Nat),
    v ∈ firstOcc l ↔ v ∈ l := by
  have key : ∀ (n : Nat) (l : List Nat), l.length ≤ n →
      (v ∈ firstOcc l ↔ v ∈ l) := by
    intro n
    induction n with
    | zero =>
      intro l hl
      rw [Nat.le_zero, List.length_eq_zero] at hl
      subst hl
      simp [firstOcc]
    | succ n ih =>
      intro l hl
      cases l with
      | nil => simp [firstOcc]
      | cons a t =>
        rw [firstOcc]
        have hlen : (t.filter (fun b => b != a)).length ≤ n := by
          have h1 := List.length_filter_le (fun b => b != a) t
          have h2 : t.length ≤ n := Nat.le_of_succ_le_succ hl
          omega
        simp only [List.mem_cons]
        constructor
        · rintro (rfl | hv)
          · exact Or.inl rfl
          · right
            have hm := (ih _ hlen).mp hv
            exact (List.mem_filter.mp hm).1
        · rintro (rfl | hv)
          · exact Or.inl rfl
          · by_cases hva : v = a
            · exact Or.inl hva
            · right
              apply (ih _ hlen).mpr
              apply List.mem_filter.mpr
              exact ⟨hv, by simp [hva]⟩
  exact fun l => key l.length l (Nat.le_refl _)

theorem firstOcc_nodup : ∀ (l : List Nat), (firstOcc l).Nodup := by
  have key : ∀ (n : Nat) (l : List Nat), l.length ≤ n →
      (firstOcc l).Nodup := by
    intro n
    induction n with
    | zero =>
      intro l hl
      rw [Nat.le_zero, List.length_eq_zero] at hl
      subst hl
      simp [firstOcc]
    | succ n ih =>
      intro l hl
      cases l with
      | nil => simp [firstOcc]
      | cons a t =>
        rw [firstOcc]
        have hlen : (t.filter (fun b => b != a)).length ≤ n := by
          have h1 := List.length_filter_le (fun b => b != a) t
          have h2 : t.length ≤ n := Nat.le_of_succ_le_succ hl
          omega
        refine List.nodup_cons.mpr ⟨?_, ih _ hlen⟩
        intro hmem
        have hm := (mem_firstOcc a _).mp hmem
        have := (List.mem_filter.mp hm).2
        simp at this
  exact fun l => key l.length l (Nat.le_refl _)

theorem firstOcc_of_nodup : ∀ (l : List Nat), l.Nodup → firstOcc l = l := by
  have key : ∀ (n : Nat) (l : List Nat), l.length ≤ n → l.Nodup →
      firstOcc l = l := by
    intro n
    induction n with
    | zero =>
      intro l hl _
      rw [Nat.le_zero, List.length_eq_zero] at hl
      subst hl
      simp [firstOcc]
    | succ n ih =>
      intro l hl hnd
      cases l with
      | nil => simp [firstOcc]
      | cons a t =>
        rw [firstOcc]
        obtain ⟨hna, hndt⟩ := List.nodup_cons.mp hnd
        have hft : t.filter (fun b => b != a) = t := by
          apply List.filter_eq_self.mpr
          intro b hb
          simp only [bne_iff_ne, ne_eq, decide_eq_true_eq]
          intro hba
          exact hna (hba ▸ hb)
        rw [hft, ih t (Nat.le_of_succ_le_succ hl) hndt]
  exact fun l hnd => key l.length l (Nat.le_refl _) hnd

theorem dedup_fixpoint_of_nodup (l : List Nat) (h : l.Nodup) :
    elideDuplicateAsyncExecuteWaits l = none := by
  simp only [elideDuplicateAsyncExecuteWaits, uniqueTimepoints_eq_firstOcc,
    firstOcc_of_nodup l h]
  simp

/-- C6: running the immediate-await elision and the duplicate-await elision
of `async.execute` leaves an await list that is exactly the
first-occurrence deduplication of the non-immediate entries: it contains no
immediate-defined entries, no duplicates, is an order-preserving
subsequence of the original non-immediate entries, and neither pattern can
fire on it again. -/
theorem awaitList_cleanup_spec (imm : Nat → Bool) (l : List Nat) :
    cleanAwaits imm l = firstOcc (l.filter (fun v => !imm v))
    ∧ (cleanAwaits imm l).all (fun v => !imm v) = true
    ∧ (cleanAwaits imm l).Nodup
    ∧ (cleanAwaits imm l).Sublist (l.filter (fun v => !imm v))
    ∧ elideImmediateAsyncExecuteWaits imm (cleanAwaits imm l) = none
    ∧ elideDuplicateAsyncExecuteWaits (cleanAwaits imm l) = none := by
  have hmain : cleanAwaits imm l =
      firstOcc (l.filter (fun v => !imm v)) := by
    simp only [cleanAwaits, elideImmediate_getD]
    simp only [elideDuplicateAsyncExecuteWaits, uniqueTimepoints_eq_firstOcc]
    split
    · next h =>
      simp only [Nat.beq_eq_true_eq] at h
      have hsub := firstOcc_sublist (l.filter (fun v => !imm v))
      exact (List.Sublist.eq_of_length hsub h).symm
    · simp
  have hsub : (cleanAwaits imm l).Sublist (l.filter (fun v => !imm v)) := by
    rw [hmain]
    exact firstOcc_sublist _
  have hnd : (cleanAwaits imm l).Nodup := by
    rw [hmain]
    exact firstOcc_nodup _
  have hall : (cleanAwaits imm l).all (fun v => !imm v) = true := by
    apply List.all_eq_true.mpr
    intro v hv
    have hm := hsub.subset hv
    exact (List.mem_filter.mp hm).2
  refine ⟨hmain, hall, hnd, hsub, ?_, dedup_fixpoint_of_nodup _ hnd⟩
  simp only [elideImmediateAsyncExecuteWaits]
  rw [if_pos]
  rw [List.isEmpty_iff]
  exact (elidedIdxs_eq_nil_iff imm _ 0).mpr hall

--=============================================================--
-- GroupAwaitsByTimepoint (StreamOpFolders.cpp lines 1982-2041)
--=============================================================--

/-- A `stream.timepoint.await` op as seen by `GroupAwaitsByTimepoint`:
its identity, placement, awaited timepoint, affinity attribute, guarded
resource operands and their sizes (results parallel the operands). -/
structure TimepointAwaitOpM where
  id : Nat
  block : Nat
  pos : Nat
  timepoint : Nat
  affinity : Option Nat
  operands : List Nat
  operandSizes : List Nat
  deriving DecidableEq, Repr

/-- One user of the matched await's timepoint value: either another
`timepoint.await` op or some other op kind. -/
inductive TpUserM where
  | awaitUser (a : TimepointAwaitOpM)
  | otherUser (id block pos : Nat)
  deriving DecidableEq, Repr

/-- Modelled from the spec: `AffinityAttr::areCompatible` lives in the
Stream dialect attribute code outside the given sources; per the spec two
affinities are compatible iff both are absent or equal. -/
def areCompatible (a b : Option Nat) : Bool :=
  a == b

/-- The covered-op collection loop of `GroupAwaitsByTimepoint`: walks the
uses of the matched op's timepoint, skipping the op itself, users in other
blocks or before the op in its block, non-await users, and awaits with an
incompatible affinity; the remaining awaits are covered, in use order. -/
def coveredAwaits (op : TimepointAwaitOpM) (uses : List TpUserM) :
    List TimepointAwaitOpM :=
  uses.filterMap fun u =>
    match u with
    | .otherUser _ _ _ => none
    | .awaitUser a =>
      if a.id == op.id then none
      else if a.block != op.block || decide (a.pos < op.pos) then none
      else if !areCompatible op.affinity a.affinity then none
      else some a

/-- The `GroupAwaitsByTimepoint` pattern: merges the matched await with all
covered awaits into one await carrying the concatenated operand and size
lists and the matched op's timepoint and affinity. The second component
enumerates the result re-routing performed by `replaceAllUsesWith`: the
entry `(ownerId, resultIdx, mergedIdx)` re-routes result `resultIdx` of the
original await `ownerId` to result `mergedIdx` of the merged op, with a
running counter over the matched op's results then each covered op's. -/
def groupAwaitsByTimepoint (op : TimepointAwaitOpM) (uses : List TpUserM) :
    Option (TimepointAwaitOpM × List (Nat × Nat × Nat)) :=
  let coveredOps := coveredAwaits op uses
  if coveredOps.isEmpty then none
  else
    let newOperands :=
      coveredOps.foldl (fun acc c => acc ++ c.operands) op.operands
    let newOperandSizes :=
      coveredOps.foldl (fun acc c => acc ++ c.operandSizes) op.operandSizes
    let newOp : TimepointAwaitOpM :=
      { id := op.id, block := op.block, pos := op.pos,
        timepoint := op.timepoint, affinity := op.affinity,
        operands := newOperands, operandSizes := newOperandSizes }
    let replHead :=
      (List.range op.operands.length).map fun k => (op.id, k, k)
    let repl := coveredOps.foldl
      (fun (st : List (Nat × Nat × Nat) × Nat) c =>
        (st.1 ++ ((List.range c.operands.length).map
          fun k => (c.id, k, st.2 + k)),
         st.2 + c.operands.length))
      (replHead, op.operands.length)
    some (newOp, repl.1)

/-- The result re-routing map stated as the specification reads: for the
ops listed as (op id, operand list) pairs, laid out from result index
`start`, each original result maps to the merged result at the running
offset. -/
def replSpec : List (Nat × List Nat) → Nat → List (Nat × Nat × Nat)
  | [], _ => []
  | (oid, opnds) :: rest, start =>
    ((List.range opnds.length).map fun k => (oid, k, start + k)) ++
      replSpec rest (start + opnds.length)

theorem foldl_append_operands (f : TimepointAwaitOpM → List Nat) :
    ∀ (cs : List TimepointAwaitOpM) (init : List Nat),
      cs.foldl (fun acc c => acc ++ f c) init = init ++ (cs.map f).flatten := by
  intro cs
  induction cs with
  | nil => intro init; simp
  | cons c rest ih =>
    intro init
    simp only [List.foldl_cons, List.map_cons, List.flatten_cons, ih,
      List.append_assoc]

theorem replFoldl_eq :
    ∀ (cs : List TimepointAwaitOpM) (pre : List (Nat × Nat × Nat))
      (start : Nat),
      (cs.foldl
        (fun (st : List (Nat × Nat × Nat) × Nat) c =>
          (st.1 ++ ((List.range c.operands.length).map
            fun k => (c.id, k, st.2 + k)),
           st.2 + c.operands.length))
        (pre, start)).1 =
        pre ++ replSpec (cs.map fun c => (c.id, c.operands)) start := by
  intro cs
  induction cs with
  | nil => intro pre start; simp [replSpec]
  | cons c rest ih =>
    intro pre start
    simp only [List.foldl_cons, List.map_cons, replSpec, ih,
      List.append_assoc]

theorem replSpec_correspond :
    ∀ (ops : List (Nat × List Nat)) (start : Nat) (e : Nat × Nat × Nat),
      e ∈ replSpec ops start →
      ∃ opnds, (e.1, opnds) ∈ ops ∧ start ≤ e.2.2 ∧
        ((ops.map Prod.snd).flatten).get? (e.2.2 - start) = opnds.get? e.2.1 := by
  intro ops
  induction ops with
  | nil =>
    intro start e he
    simp [replSpec] at he
  | cons p rest ih =>
    intro start e he
    obtain ⟨oid, opnds⟩ := p
    simp only [replSpec, List.mem_append, List.mem_map,
      List.mem_range] at he
    rcases he with ⟨k, hk, rfl⟩ | he
    · refine ⟨opnds, List.mem_cons_self _ _, Nat.le_add_right _ _, ?_⟩
      simp only [List.map_cons, List.flatten_cons, Nat.add_sub_cancel_left]
      rw [List.get?_append hk]
    · obtain ⟨opnds2, hmem, hge, hidx⟩ := ih (start + opnds.length) e he
      refine ⟨opnds2, List.mem_cons_of_mem _ hmem, ?_, ?_⟩
      · omega
      · simp only [List.map_cons, List.flatten_cons]
        rw [List.get?_append_right (by omega)]
        rw [show e.2.2 - start - opnds.length =
          e.2.2 - (start + opnds.length) from by omega]
        exact hidx

/-- C7: when `GroupAwaitsByTimepoint` fires on an await, it has found at
least one other await in the same block (at or after the matched op, with
the same timepoint value use and a compatible affinity), and it merges
them all into a single multi-result await: the merged op keeps the matched
op's timepoint and affinity and carries the concatenated operand and size
lists, and every result of every original await is re-routed to the merged
result that carries the same operand. -/
theorem groupAwaitsByTimepoint_spec (op : TimepointAwaitOpM)
    (uses : List TpUserM) (newOp : TimepointAwaitOpM)
    (repl : List (Nat × Nat × Nat))
    (h : groupAwaitsByTimepoint op uses = some (newOp, repl)) :
    coveredAwaits op uses ≠ []
    ∧ newOp.timepoint = op.timepoint
    ∧ newOp.affinity = op.affinity
    ∧ newOp.operands =
        op.operands ++ ((coveredAwaits op uses).map (·.operands)).flatten
    ∧ newOp.operandSizes =
        op.operandSizes ++
          ((coveredAwaits op uses).map (·.operandSizes)).flatten
    ∧ (∀ c ∈ coveredAwaits op uses,
        c.block = op.block ∧ ¬ c.pos < op.pos ∧ c.id ≠ op.id ∧
          areCompatible op.affinity c.affinity = true)
    ∧ repl = replSpec ((op.id, op.operands) ::
        (coveredAwaits op uses).map fun c => (c.id, c.operands)) 0
    ∧ (∀ e ∈ repl, ∃ opnds,
        (e.1, opnds) ∈ (op.id, op.operands) ::
          ((coveredAwaits op uses).map fun c => (c.id, c.operands)) ∧
        newOp.operands.get? e.2.2 = opnds.get? e.2.1) := by
  simp only [groupAwaitsByTimepoint] at h
  split at h
  · exact absurd h (by simp)
  · next hne =>
    simp only [Option.some.injEq, Prod.mk.injEq] at h
    obtain ⟨hop, hrepl⟩ := h
    have hcov : coveredAwaits op uses ≠ [] := by
      intro hc
      rw [hc] at hne
      simp at hne
    have hops : newOp.operands =
        op.operands ++ ((coveredAwaits op uses).map (·.operands)).flatten := by
      rw [← hop]
      simp only [foldl_append_operands]
    have hsizes : newOp.operandSizes =
        op.operandSizes ++
          ((coveredAwaits op uses).map (·.operandSizes)).flatten := by
      rw [← hop]
      simp only [foldl_append_operands]
    have hreplspec : repl = replSpec ((op.id, op.operands) ::
        (coveredAwaits op uses).map fun c => (c.id, c.operands)) 0 := by
      rw [← hrepl, replFoldl_eq]
      simp only [replSpec, Nat.zero_add]
    have hprops : ∀ c ∈ coveredAwaits op uses,
        c.block = op.block ∧ ¬ c.pos < op.pos ∧ c.id ≠ op.id ∧
          areCompatible op.affinity c.affinity = true := by
      intro c hc
      simp only [coveredAwaits, List.mem_filterMap] at hc
      obtain ⟨u, _, hu⟩ := hc
      cases u with
      | otherUser uid ublock upos => simp at hu
      | awaitUser a =>
        simp only at hu
        by_cases h1 : a.id == op.id
        · rw [if_pos h1] at hu
          exact absurd hu (by simp)
        · rw [if_neg h1] at hu
          by_cases h2 : (a.block != op.block || decide (a.pos < op.pos)) = true
          · rw [if_pos h2] at hu
            exact absurd hu (by simp)
          · rw [if_neg h2] at hu
            by_cases h3 : (!areCompatible op.affinity a.affinity) = true
            · rw [if_pos h3] at hu
              exact absurd hu (by simp)
            · rw [if_neg h3] at hu
              injection hu with hu
              subst hu
              simp only [Bool.or_eq_true, bne_iff_ne, ne_eq,
                decide_eq_true_eq, not_or] at h2
              refine ⟨by tauto, h2.2, ?_, ?_⟩
              · simpa using h1
              · simpa using h3
    refine ⟨hcov, by rw [← hop], by rw [← hop], hops, hsizes, hprops,
      hreplspec, ?_⟩
    intro e he
    rw [hreplspec] at he
    obtain ⟨opnds, hmem, _, hidx⟩ := replSpec_correspond _ 0 e he
    refine ⟨opnds, hmem, ?_⟩
    rw [hops]
    rw [Nat.sub_zero] at hidx
    rw [← hidx, List.map_cons, List.flatten_cons, List.map_map]
    rfl

/-- C7 witness: two awaits on the same timepoint in one block with
compatible (absent) affinities are grouped; the amended-free claim theorem
applied at this input yields the merged operand list and rerouting map. -/
theorem groupAwaitsByTimepoint_spec_witness :
    groupAwaitsByTimepoint
        { id := 0, block := 0, pos := 0, timepoint := 100, affinity := none,
          operands := [1], operandSizes := [2] }
        [TpUserM.awaitUser
          { id := 0, block := 0, pos := 0, timepoint := 100, affinity := none,
            operands := [1], operandSizes := [2] },
         TpUserM.awaitUser
          { id := 1, block := 0, pos := 2, timepoint := 100, affinity := none,
            operands := [3], operandSizes := [4] }] =
      some ({ id := 0, block := 0, pos := 0, timepoint := 100,
              affinity := none, operands := [1, 3],
              operandSizes := [2, 4] },
            [(0, 0, 0), (1, 0, 1)])
    ∧ coveredAwaits
        { id := 0, block := 0, pos := 0, timepoint := 100, affinity := none,
          operands := [1], operandSizes := [2] }
        [TpUserM.awaitUser
          { id := 0, block := 0, pos := 0, timepoint := 100, affinity := none,
            operands := [1], operandSizes := [2] },
         TpUserM.awaitUser
          { id := 1, block := 0, pos := 2, timepoint := 100, affinity := none,
            operands := [3], operandSizes := [4] }] ≠ [] :=
  ⟨rfl,
    (groupAwaitsByTimepoint_spec
      { id := 0, block := 0, pos := 0, timepoint := 100, affinity := none,
        operands := [1], operandSizes := [2] }
      [TpUserM.awaitUser
        { id := 0, block := 0, pos := 0, timepoint := 100, affinity := none,
          operands := [1], operandSizes := [2] },
       TpUserM.awaitUser
        { id := 1, block := 0, pos := 2, timepoint := 100, affinity := none,
          operands := [3], operandSizes := [4] }]
      { id := 0, block := 0, pos := 0, timepoint := 100, affinity := none,
        operands := [1, 3], operandSizes := [2, 4] }
      [(0, 0, 0), (1, 0, 1)] rfl).1⟩

end Stream2Proof
